import Mathlib

/-!
Shallow embedding of the `shred` LR parser generator (parser.go, token.go).

Go maps keyed by structurally-compared values are modelled as association
lists (`alookup` / `ainsert`); Go's unordered map iteration is fixed to
first-insertion order, which is the only determinisation of the source's
behaviour used below.  Panics are modelled as a distinct `fault` outcome,
fallible functions return `Option`/error components, and the recursive
automaton construction takes a fuel parameter (the Go recursion terminates
because the state universe is finite; fuel exhaustion is reported as a
distinct `outOfFuel` error value).
-/

set_option autoImplicit false

namespace Shred

/-- Token kinds, mirroring the `Kind` constants of token.go. -/
inductive Kind where
  | KindIdent
  | KindInt
  | KindFloat
  | KindString
  | KindRawString
  | KindChar
  | KindEOF
  | KindOther
  | KindMatch
  deriving DecidableEq, Repr

/-- A token as observed by the grammar layer: its kind classification and its
text.  The `goToken` predicates (`IsIdent`, `IsEOF`, ...) are all determined
by the kind, so only the kind and text are kept. -/
structure Token where
  kind : Kind
  text : String
  deriving DecidableEq, Repr

/-- Terminal symbols: `EOF`, the identifier wildcard `Ident`, and exact-text
`Match`, mirroring parser.go. -/
inductive Terminal where
  | EOF
  | Ident
  | Match (text : String)
  deriving DecidableEq, Repr

/-- A grammar symbol is a non-terminal (identified by name) or a terminal. -/
inductive Symbol where
  | nt (name : String)
  | term (t : Terminal)
  deriving DecidableEq, Repr

/-- `terminalFromToken` of parser.go.  Identifier tokens map to an exact
`Match` on their text and are fallback-eligible; EOF and other-kind tokens
are not; every remaining kind makes the Go code panic, modelled as `none`. -/
def terminalFromToken (tok : Token) : Option (Terminal × Bool) :=
  match tok.kind with
  | Kind.KindIdent => some (Terminal.Match tok.text, true)
  | Kind.KindEOF => some (Terminal.EOF, false)
  | Kind.KindOther => some (Terminal.Match tok.text, false)
  | _ => none

/-- Attribute values: Go's `interface{}` holds the shifted tokens (leaves)
and arbitrary builder-produced values, modelled as a sum. -/
abbrev Attrib (α : Type) := Token ⊕ α

/-- A context-free rule with an associated AST builder (parser.go `Rule`). -/
structure Rule (α : Type) where
  Lhs : String
  Rhs : List Symbol
  Builder : List (Attrib α) → Attrib α

/-- An LR(0) item: rule index and dot position (parser.go `item`). -/
structure Item where
  rule : Nat
  dot : Nat
  deriving DecidableEq, Repr

/-- The strict order on items from parser.go `item.less`: by rule index,
then by dot. -/
def Item.less (i1 i2 : Item) : Bool :=
  if i1.rule < i2.rule then true
  else if i1.rule > i2.rule then false
  else i1.dot < i2.dot

/-- A state: a list of items, kept sorted and duplicate-free by `addItem`
(parser.go `state`). -/
structure StateV where
  items : List Item
  deriving DecidableEq, Repr

/-- Ordered insertion of an item (stable, by `Item.less`). -/
def insertSortedItem (it : Item) : List Item → List Item
  | [] => [it]
  | x :: xs => if it.less x then it :: x :: xs else x :: insertSortedItem it xs

/-- Insertion sort by `Item.less`; `sort.Slice` in `addItem` sorts the whole
appended list, and on lists of pairwise-distinct items every sort produces
this unique sorted arrangement. -/
def sortItems (l : List Item) : List Item :=
  l.foldr insertSortedItem []

/-- parser.go `state.addItem`: insert if absent (scanning for equality),
keeping the item list sorted; reports whether an insertion happened. -/
def addItem (s : StateV) (it : Item) : StateV × Bool :=
  if it ∈ s.items then (s, false)
  else (⟨sortItems (s.items ++ [it])⟩, true)

/-- Add a list of items one by one, or-ing the insertion flags
(the loop over `newItems` in parser.go `closeState`). -/
def addAll (s : StateV) : List Item → StateV × Bool
  | [] => (s, false)
  | it :: rest =>
    let p := addItem s it
    let q := addAll p.1 rest
    (q.1, p.2 || q.2)

/-- Association-list lookup (first entry with the given key). -/
def alookup {κ β : Type} [DecidableEq κ] (k : κ) : List (κ × β) → Option β
  | [] => none
  | (k', v) :: rest => if k' = k then some v else alookup k rest

/-- Association-list insert: overwrite in place if the key is present,
append otherwise. -/
def ainsert {κ β : Type} [DecidableEq κ] (k : κ) (v : β) : List (κ × β) → List (κ × β)
  | [] => [(k, v)]
  | (k', v') :: rest => if k' = k then (k, v) :: rest else (k', v') :: ainsert k v rest

/-- Append if absent (Go set-typed maps `map[T]struct{}`). -/
def insertDedup {κ : Type} [DecidableEq κ] (l : List κ) (k : κ) : List κ :=
  if k ∈ l then l else l ++ [k]

/-- Indices of the rules whose left-hand side is `lhs`
(parser.go `rulesWithLhs`, returning indices in order). -/
def rulesWithLhs {α : Type} (rules : List (Rule α)) (lhs : String) : List Nat :=
  rules.enum.filterMap fun p => if p.2.Lhs = lhs then some p.1 else none

/-- The rule indices contributed by one item during closure: if a
non-terminal follows the dot, every rule with that left-hand side
(parser.go `closeState`, inner loop body). -/
def genItems {α : Type} (rules : List (Rule α)) (it : Item) : List Nat :=
  match rules[it.rule]? with
  | some r =>
    match r.Rhs[it.dot]? with
    | some (Symbol.nt name) => rulesWithLhs rules name
    | _ => []
  | none => []

/-- The items a closure iteration wants to add: for every item of `s` not
yet processed, the `(r, 0)` items it implies. -/
def newItemsOf {α : Type} (rules : List (Rule α)) (s : StateV) (processed : List Item) : List Item :=
  (s.items.filter fun it => decide (it ∉ processed)).flatMap fun it =>
    (genItems rules it).map fun r => ({ rule := r, dot := 0 } : Item)

/-- One-iteration-per-fuel-unit closure loop of parser.go `closeState`:
scan the items not yet processed, collect the `(r, 0)` items they imply,
add them all, and repeat while something was added. -/
def closeLoop {α : Type} (rules : List (Rule α)) : Nat → StateV → List Item → StateV
  | 0, s, _ => s
  | fuel + 1, s, processed =>
    if (addAll s (newItemsOf rules s processed)).2 then
      closeLoop rules fuel (addAll s (newItemsOf rules s processed)).1
        (processed ++ s.items.filter fun it => decide (it ∉ processed))
    else (addAll s (newItemsOf rules s processed)).1

/-- parser.go `closeState`.  The loop adds only items `(r, 0)` with
`r < rules.length`, each at most once, so `rules.length + 1` iterations
always reach the fixpoint (proved below). -/
def closeState {α : Type} (rules : List (Rule α)) (s : StateV) : StateV :=
  closeLoop rules (rules.length + 1) s []

/-- A state is closed when the closure scan can add nothing: every item
already implies only items present in the state. -/
def isClosed {α : Type} (rules : List (Rule α)) (s : StateV) : Prop :=
  ∀ it ∈ s.items, ∀ r ∈ genItems rules it, ({ rule := r, dot := 0 } : Item) ∈ s.items

instance isClosedDecidable {α : Type} (rules : List (Rule α)) (s : StateV) :
    Decidable (isClosed rules s) :=
  inferInstanceAs (Decidable (∀ it ∈ s.items, ∀ r ∈ genItems rules it,
    ({ rule := r, dot := 0 } : Item) ∈ s.items))

/-- The number of rules whose `(r, 0)` item is already present in a state
(the closure loop's termination measure: it strictly grows while the loop
keeps adding). -/
def presentCount {α : Type} (rules : List (Rule α)) (s : StateV) : Nat :=
  ((Finset.range rules.length).filter fun r => ({ rule := r, dot := 0 } : Item) ∈ s.items).card

/-- Actions of the action table (parser.go `action` variants `stop`,
`shift`, `reduce`; a reduce carries the rule's index in the rule list,
standing for the Go rule pointer). -/
inductive Action where
  | stop
  | shift (s : StateV)
  | reduce (r : Nat)
  deriving DecidableEq, Repr

/-- The two mutable tables of the automaton (the `actions` and `gotos`
trees of parser.go, keyed by structural state comparison). -/
structure Tables where
  actions : List (StateV × List (Terminal × Action))
  gotos : List (StateV × List (String × StateV))

/-- Construction errors (parser.go `addState`), plus fuel exhaustion of the
embedding's recursion bound. -/
inductive BErr where
  | reduceReduce (s : StateV)
  | shiftShift (t : Terminal) (s : StateV)
  | outOfFuel
  deriving DecidableEq, Repr

/-- Whether an optional action is a shift (the `act.(shift)` type test of
parser.go `addState`). -/
def isShiftAct : Option Action → Bool
  | some (Action.shift _) => true
  | _ => false

/-- Whether a build outcome is the multiple-shift conflict error. -/
def isShiftShiftErr : Option BErr → Bool
  | some (BErr.shiftShift _ _) => true
  | _ => false

/-- The rule indices of the complete items of a state
(parser.go `reductions`). -/
def reductions {α : Type} (rules : List (Rule α)) (s : StateV) : List Nat :=
  s.items.filterMap fun it =>
    match rules[it.rule]? with
    | some r => if it.dot = r.Rhs.length then some it.rule else none
    | none => none

/-- Accumulate, for every item with a terminal after its dot, the advanced
item into the per-terminal target state (the map-building loop of
parser.go `stateTerminals`). -/
def stTermsLoop {α : Type} (rules : List (Rule α)) : List Item → List (Terminal × StateV) → List (Terminal × StateV)
  | [], m => m
  | it :: rest, m =>
    let m' := match rules[it.rule]? with
      | some r =>
        match r.Rhs[it.dot]? with
        | some (Symbol.term t) =>
          let st := (alookup t m).getD ⟨[]⟩
          ainsert t (addItem st ⟨it.rule, it.dot + 1⟩).1 m
        | _ => m
      | none => m
    stTermsLoop rules rest m'

/-- parser.go `stateTerminals`: per-terminal advanced target states, each
closed. -/
def stateTerminals {α : Type} (rules : List (Rule α)) (s : StateV) : List (Terminal × StateV) :=
  (stTermsLoop rules s.items []).map fun p => (p.1, closeState rules p.2)

/-- The property established for every registered action map: in a state
with exactly one reduction, every terminal with an advance target is mapped
to the corresponding shift (overriding the default reduce). -/
def GoodMap {α : Type} (rules : List (Rule α)) (s : StateV) (m : List (Terminal × Action)) : Prop :=
  (reductions rules s).length = 1 →
    ∀ t s2, (t, s2) ∈ stateTerminals rules s → alookup t m = some (Action.shift s2)

/-- Accumulate the per-non-terminal advanced target states
(parser.go `stateNonTerminals`, map-building loop; non-terminals are keyed
by name, which is their Go equality). -/
def stNTsLoop {α : Type} (rules : List (Rule α)) : List Item → List (String × StateV) → List (String × StateV)
  | [], m => m
  | it :: rest, m =>
    let m' := match rules[it.rule]? with
      | some r =>
        match r.Rhs[it.dot]? with
        | some (Symbol.nt name) =>
          let st := (alookup name m).getD ⟨[]⟩
          ainsert name (addItem st ⟨it.rule, it.dot + 1⟩).1 m
        | _ => m
      | none => m
    stNTsLoop rules rest m'

/-- parser.go `stateNonTerminals`: per-non-terminal advanced target states,
each closed. -/
def stateNonTerminals {α : Type} (rules : List (Rule α)) (s : StateV) : List (String × StateV) :=
  (stNTsLoop rules s.items []).map fun p => (p.1, closeState rules p.2)

/-- The shift loop of parser.go `addState`: for each terminal-keyed target,
fail if the already-present action for that terminal is itself a shift,
otherwise overwrite with the shift (the Go tree holds a pointer to the
mutated map, so the state's entry is rewritten at every update) and
recursively register the target, discarding its error as the Go code does. -/
def shiftLoop (f : StateV → Tables → Tables × Option BErr) (s : StateV) :
    List (Terminal × StateV) → List (Terminal × Action) → Tables → Tables × List (Terminal × Action) × Option BErr
  | [], a, tbl => (tbl, a, none)
  | (t, s2) :: rest, a, tbl =>
    if isShiftAct (alookup t a) then (tbl, a, some (BErr.shiftShift t s))
    else
      shiftLoop f s rest (ainsert t (Action.shift s2) a)
        (f s2 { tbl with actions := ainsert s (ainsert t (Action.shift s2) a) tbl.actions }).1

/-- The goto loop of parser.go `addState`: record each non-terminal target
in the state's goto map and recursively register it, discarding its error
as the Go code does. -/
def gotoLoop (f : StateV → Tables → Tables × Option BErr) (s : StateV) :
    List (String × StateV) → List (String × StateV) → Tables → Tables
  | [], _, tbl => tbl
  | (nt, s2) :: rest, g, tbl =>
    let g' := ainsert nt s2 g
    let tbl' := { tbl with gotos := ainsert s g' tbl.gotos }
    gotoLoop f s rest g' (f s2 tbl').1

/-- The default catch-all action map of parser.go `addState`: when the
state has exactly one reduction, every terminal of the grammar maps to that
reduce; otherwise the map starts empty. -/
def defaultActs (terminals : List Terminal) (rs : List Nat) : List (Terminal × Action) :=
  match rs with
  | [r] => terminals.map fun t => (t, Action.reduce r)
  | _ => []

/-- The body of parser.go `addState`, with the recursive call abstracted as
`f`: memoise on the structural key, register an (initially empty) action
map, fail on two or more reductions, default every terminal to the single
reduction if there is one, run the shift loop (propagating its error), then
register the goto map and run the goto loop. -/
def addStateF {α : Type} (rules : List (Rule α)) (terminals : List Terminal)
    (f : StateV → Tables → Tables × Option BErr) (s : StateV) (tbl : Tables) :
    Tables × Option BErr :=
  if (alookup s tbl.actions).isSome then (tbl, none)
  else
    let tbl0 : Tables := { tbl with actions := ainsert s [] tbl.actions }
    let rs := reductions rules s
    if rs.length > 1 then (tbl0, some (BErr.reduceReduce s))
    else
      let a0 : List (Terminal × Action) := defaultActs terminals rs
      let tbl1 : Tables := { tbl0 with actions := ainsert s a0 tbl0.actions }
      match shiftLoop f s (stateTerminals rules s) a0 tbl1 with
      | (tbl2, _, some e) => (tbl2, some e)
      | (tbl2, _, none) =>
        let tbl3 : Tables := { tbl2 with gotos := ainsert s [] tbl2.gotos }
        (gotoLoop f s (stateNonTerminals rules s) [] tbl3, none)

/-- parser.go `addState` with fuel bounding the recursion depth. -/
def addState {α : Type} (rules : List (Rule α)) (terminals : List Terminal) :
    Nat → StateV → Tables → Tables × Option BErr
  | 0 => fun _ tbl => (tbl, some BErr.outOfFuel)
  | fuel + 1 => addStateF rules terminals (addState rules terminals fuel)

/-- An attribute LR-grammar with its automaton (parser.go `Grammar`). -/
structure Grammar (α : Type) where
  Rules : List (Rule α)
  actions : List (StateV × List (Terminal × Action)) := []
  gotos : List (StateV × List (String × StateV)) := []
  nonterminals : List String := []
  terminals : List Terminal := []
  initState : StateV := ⟨[]⟩

/-- parser.go `NewGrammar`. -/
def NewGrammar {α : Type} (rules : List (Rule α)) : Grammar α :=
  { Rules := rules }

/-- The symbol scan of parser.go `Build`: classify every right-hand-side
symbol into the non-terminal or terminal set (sets modelled as deduplicated
lists in first-insertion order). -/
def scanSymbols {α : Type} (rules : List (Rule α)) (nts : List String) (ts : List Terminal) :
    List String × List Terminal :=
  rules.foldl
    (fun acc r =>
      r.Rhs.foldl
        (fun acc sym =>
          match sym with
          | Symbol.nt n => (insertDedup acc.1 n, acc.2)
          | Symbol.term t => (acc.1, insertDedup acc.2 t))
        acc)
    (nts, ts)

/-- parser.go `Build`: scan the symbols, add `EOF` to the terminal set, seed
and close the initial state from the rules whose left-hand side is the start
marker `"0"`, and register the state graph.  The returned grammar carries
whatever tables were accumulated, even when an error is reported. -/
def buildRun {α : Type} (gr : Grammar α) (fuel : Nat) : Grammar α × Option BErr :=
  let scanned := scanSymbols gr.Rules gr.nonterminals gr.terminals
  let ts := insertDedup scanned.2 Terminal.EOF
  let s0 := closeState gr.Rules ⟨(rulesWithLhs gr.Rules "0").map fun r => ⟨r, 0⟩⟩
  match addState gr.Rules ts fuel s0 { actions := gr.actions, gotos := gr.gotos } with
  | (tbl, e) =>
    ({ gr with nonterminals := scanned.1, terminals := ts, initState := s0,
               actions := tbl.actions, gotos := tbl.gotos }, e)

/-- Parse-time error values (the `errors.New` returns of parser.go `Parse`,
carrying the same identifying data as the Go messages). -/
inductive PError where
  | noActions (s : StateV)
  | noAction (t : Terminal) (s : StateV)
  | noGotos (s : StateV)
  | noGoto (lhs : String) (s : StateV)
  deriving DecidableEq, Repr

/-- The outcome of a parse: a value, a returned error, a runtime fault
(Go panic), or exhaustion of the embedding's step fuel. -/
inductive PResult (α : Type) where
  | ok (v : Attrib α)
  | perror (e : PError)
  | fault (msg : String)
  | outOfFuel
  deriving DecidableEq, Repr

/-- The parser configuration: the attribute stack and state stack (top at
the end, as in the Go slices), the current state, and the input cursor. -/
structure PConf (α : Type) where
  stack : List (Attrib α)
  states : List StateV
  st : StateV
  i : Nat

/-- The result of one parse step: finished with a result, or continue with
a new configuration.  The grammar is threaded through explicitly; the Go
code assigns no grammar field, so every branch passes it on unchanged. -/
inductive StepRes (α : Type) where
  | done (gr : Grammar α) (r : PResult α)
  | next (gr : Grammar α) (c : PConf α)

/-- Action lookup with identifier fallback (parser.go `Parse`, the
`as[t]` / `as[Ident{}]` pair of lookups). -/
def resolveAction (as : List (Terminal × Action)) (t : Terminal) (id : Bool) : Option Action :=
  match alookup t as with
  | some a => some a
  | none => if id then alookup Terminal.Ident as else none

/-- Dispatch of a found action (the `switch act` of parser.go `Parse`).
Slice operations whose Go counterparts panic on out-of-range indices
produce `fault`. -/
def applyAction {α : Type} (gr : Grammar α) (c : PConf α) (tok : Token) (act : Action) : StepRes α :=
  match act with
  | Action.stop =>
    match c.stack.getLast? with
    | some v => StepRes.done gr (PResult.ok v)
    | none => StepRes.done gr (PResult.fault "index out of range")
  | Action.shift s2 =>
    StepRes.next gr { stack := c.stack ++ [Sum.inl tok], states := c.states ++ [s2], st := s2, i := c.i + 1 }
  | Action.reduce ri =>
    match gr.Rules[ri]? with
    | none => StepRes.done gr (PResult.fault "index out of range")
    | some r =>
      let l := r.Rhs.length
      if l ≤ c.stack.length then
        let data := c.stack.drop (c.stack.length - l)
        let newStack := c.stack.take (c.stack.length - l) ++ [r.Builder data]
        if r.Lhs = "0" then
          if newStack.length = 1 then StepRes.done gr (PResult.ok (r.Builder data))
          else StepRes.done gr (PResult.fault "corrupted symbol stack")
        else
          if l ≤ c.states.length then
            let states1 := c.states.take (c.states.length - l)
            match states1.getLast? with
            | none => StepRes.done gr (PResult.fault "index out of range")
            | some pst =>
              match alookup pst gr.gotos with
              | none => StepRes.done gr (PResult.perror (PError.noGotos c.st))
              | some gt =>
                match alookup r.Lhs gt with
                | none => StepRes.done gr (PResult.perror (PError.noGoto r.Lhs c.st))
                | some st2 =>
                  StepRes.next gr { stack := newStack, states := states1 ++ [st2], st := st2, i := c.i }
          else StepRes.done gr (PResult.fault "slice bounds out of range")
      else StepRes.done gr (PResult.fault "slice bounds out of range")

/-- One iteration of the parse loop of parser.go `Parse`: fetch the token at
the cursor (Go panics past the end), fetch the current state's action map,
classify the token (Go panics on unsupported kinds), resolve the action with
identifier fallback, and dispatch. -/
def parseStep {α : Type} (tokens : List Token) (gr : Grammar α) (c : PConf α) : StepRes α :=
  match tokens[c.i]? with
  | none => StepRes.done gr (PResult.fault "index out of range")
  | some tok =>
    match alookup c.st gr.actions with
    | none => StepRes.done gr (PResult.perror (PError.noActions c.st))
    | some as =>
      match terminalFromToken tok with
      | none => StepRes.done gr (PResult.fault "couldnt convert token to terminal")
      | some ti =>
        match resolveAction as ti.1 ti.2 with
        | none => StepRes.done gr (PResult.perror (PError.noAction ti.1 c.st))
        | some act => applyAction gr c tok act

/-- The fuelled parse loop. -/
def parseLoop {α : Type} (tokens : List Token) : Nat → Grammar α → PConf α → Grammar α × PResult α
  | 0, gr, _ => (gr, PResult.outOfFuel)
  | fuel + 1, gr, c =>
    match parseStep tokens gr c with
    | StepRes.done gr' r => (gr', r)
    | StepRes.next gr' c' => parseLoop tokens fuel gr' c'

/-- parser.go `Parse`: run the loop from the initial configuration (empty
attribute stack, state stack holding the initial state, cursor at 0). -/
def Parse {α : Type} (gr : Grammar α) (tokens : List Token) (fuel : Nat) : Grammar α × PResult α :=
  parseLoop tokens fuel gr { stack := [], states := [gr.initState], st := gr.initState, i := 0 }

/-! ### Concrete grammars used as test inputs -/

/-- Coerce an attribute to a number, for the example builders. -/
def asNum : Attrib Int → Int
  | Sum.inr n => n
  | Sum.inl _ => 0

/-- Decimal value of a token text (a kernel-computable stand-in for the
round-trip scenario's "parse leaf as number" builder). -/
def leafNum (s : String) : Int :=
  Int.ofNat (s.data.foldl (fun acc c => acc * 10 + (c.toNat - 48)) 0)

/-- The round-trip grammar of the spec: `0 -> E`, `E -> E "+" E` (builder:
sum of its first and third arguments), `E -> _ident_` (builder: leaf text as
a number). -/
def exprRules : List (Rule Int) :=
  [ { Lhs := "0", Rhs := [Symbol.nt "E"], Builder := fun data => data.getD 0 (Sum.inr 0) },
    { Lhs := "E", Rhs := [Symbol.nt "E", Symbol.term (Terminal.Match "+"), Symbol.nt "E"],
      Builder := fun data => Sum.inr (asNum (data.getD 0 (Sum.inr 0)) + asNum (data.getD 2 (Sum.inr 0))) },
    { Lhs := "E", Rhs := [Symbol.term Terminal.Ident],
      Builder := fun data => Sum.inr (match data.getD 0 (Sum.inr 0) with
        | Sum.inl t => leafNum t.text
        | Sum.inr n => n) } ]

/-- The built round-trip grammar (with its build error component). -/
def exprBuild : Grammar Int × Option BErr := buildRun (NewGrammar exprRules) 30

/-- The token sequence `[1, "+", 2]` followed by end of input. -/
def exprTokens : List Token :=
  [⟨Kind.KindIdent, "1"⟩, ⟨Kind.KindOther, "+"⟩, ⟨Kind.KindIdent, "2"⟩, ⟨Kind.KindEOF, ""⟩]

/-- A grammar with a reduce-reduce conflict in a non-initial state:
`0 -> A`, `A -> "a"`, `A -> "a"`. -/
def dupRules : List (Rule Unit) :=
  [ { Lhs := "0", Rhs := [Symbol.nt "A"], Builder := fun _ => Sum.inr () },
    { Lhs := "A", Rhs := [Symbol.term (Terminal.Match "a")], Builder := fun _ => Sum.inr () },
    { Lhs := "A", Rhs := [Symbol.term (Terminal.Match "a")], Builder := fun _ => Sum.inr () } ]

/-- The built conflicting grammar. -/
def dupBuild : Grammar Unit × Option BErr := buildRun (NewGrammar dupRules) 20

/-- The state reached from the initial state of `dupRules` by shifting
`"a"`: both items are complete, so it has two reductions. -/
def dupConflictState : StateV := ⟨[⟨1, 1⟩, ⟨2, 1⟩]⟩

/-- A grammar that accepts while the attribute stack is deeper than one:
`0 -> E`, `E -> "(" 0 ")"`, `0 -> "a"`.  The non-terminal `"0"` on a
right-hand side makes the start rule `0 -> "a"` reducible mid-stack. -/
def wrapRules : List (Rule Unit) :=
  [ { Lhs := "0", Rhs := [Symbol.nt "E"], Builder := fun _ => Sum.inr () },
    { Lhs := "E", Rhs := [Symbol.term (Terminal.Match "("), Symbol.nt "0", Symbol.term (Terminal.Match ")")],
      Builder := fun _ => Sum.inr () },
    { Lhs := "0", Rhs := [Symbol.term (Terminal.Match "a")], Builder := fun _ => Sum.inr () } ]

/-- The built wrapping grammar. -/
def wrapBuild : Grammar Unit × Option BErr := buildRun (NewGrammar wrapRules) 20

/-- Tokens `"(" "a"` followed by end of input. -/
def wrapTokens : List Token :=
  [⟨Kind.KindOther, "("⟩, ⟨Kind.KindOther, "a"⟩, ⟨Kind.KindEOF, ""⟩]

/-! ### Small helpers for the parse-engine theorems -/

/-- The grammar component of a step result. -/
def StepRes.grOf {α : Type} : StepRes α → Grammar α
  | StepRes.done g _ => g
  | StepRes.next g _ => g

theorem applyAction_grOf {α : Type} (gr : Grammar α) (c : PConf α) (tok : Token) (act : Action) :
    (applyAction gr c tok act).grOf = gr := by
  unfold applyAction
  repeat' first
    | rfl
    | split
    | dsimp only

theorem parseStep_grOf {α : Type} (tokens : List Token) (gr : Grammar α) (c : PConf α) :
    (parseStep tokens gr c).grOf = gr := by
  unfold parseStep
  repeat' first
    | rfl
    | exact applyAction_grOf _ _ _ _
    | split

theorem parseLoop_fst {α : Type} (tokens : List Token) (fuel : Nat) (gr : Grammar α) (c : PConf α) :
    (parseLoop tokens fuel gr c).1 = gr := by
  induction fuel generalizing gr c with
  | zero => rfl
  | succ fuel ih =>
    unfold parseLoop
    have h := parseStep_grOf tokens gr c
    cases hs : parseStep tokens gr c with
    | done gr' r =>
      rw [hs] at h
      exact h
    | next gr' c' =>
      rw [hs] at h
      simp only [StepRes.grOf] at h
      exact (ih gr' c').trans h

/-! ### Claim theorems -/

/-- Claim C8: Parse is read-only on the automaton.  The parse loop threads
the grammar (rule list, action table, goto table, terminal and non-terminal
sets, initial state) through every step and returns it unchanged; the only
evolving state is the configuration local to the call. -/
theorem C8_parse_readonly {α : Type} (gr : Grammar α) (tokens : List Token) (fuel : Nat) :
    (Parse gr tokens fuel).1 = gr :=
  parseLoop_fst tokens fuel gr _

/-- Claim C5: terminal classification maps an identifier-kind token to
`Match` on its text marked fallback-eligible, an end-of-input token to
`EOF` not fallback-eligible, an other-kind token to `Match` on its text not
fallback-eligible, and faults (returns `none`, the model of the Go panic)
on the integer, float, string, raw-string and character kinds. -/
theorem C5_terminal_classification (tok : Token) :
    (tok.kind = Kind.KindIdent → terminalFromToken tok = some (Terminal.Match tok.text, true)) ∧
    (tok.kind = Kind.KindEOF → terminalFromToken tok = some (Terminal.EOF, false)) ∧
    (tok.kind = Kind.KindOther → terminalFromToken tok = some (Terminal.Match tok.text, false)) ∧
    ((tok.kind = Kind.KindInt ∨ tok.kind = Kind.KindFloat ∨ tok.kind = Kind.KindString ∨
      tok.kind = Kind.KindRawString ∨ tok.kind = Kind.KindChar) → terminalFromToken tok = none) := by
  obtain ⟨k, t⟩ := tok
  cases k <;> simp [terminalFromToken]

/-- Witness for C5 at concrete tokens of each relevant kind. -/
theorem C5_terminal_classification_witness :
    terminalFromToken ⟨Kind.KindIdent, "x"⟩ = some (Terminal.Match "x", true) ∧
    terminalFromToken ⟨Kind.KindEOF, ""⟩ = some (Terminal.EOF, false) ∧
    terminalFromToken ⟨Kind.KindOther, "+"⟩ = some (Terminal.Match "+", false) ∧
    terminalFromToken ⟨Kind.KindString, "s"⟩ = none :=
  ⟨(C5_terminal_classification _).1 rfl,
   (C5_terminal_classification _).2.1 rfl,
   (C5_terminal_classification _).2.2.1 rfl,
   (C5_terminal_classification _).2.2.2 (Or.inr (Or.inr (Or.inl rfl)))⟩

/-- Claim C10: Parse performs no emptiness or end-of-input check on the
token sequence: on the empty sequence the very first iteration faults with
an out-of-range index, and any step whose cursor is past the last token
faults the same way, rather than returning an error value. -/
theorem C10_no_input_bounds_check :
    (∀ (α : Type) (gr : Grammar α) (fuel : Nat),
      (Parse gr [] (fuel + 1)).2 = PResult.fault "index out of range") ∧
    (∀ (α : Type) (tokens : List Token) (gr : Grammar α) (c : PConf α),
      tokens.length ≤ c.i →
      parseStep tokens gr c = StepRes.done gr (PResult.fault "index out of range")) := by
  constructor
  · intro α gr fuel
    rfl
  · intro α tokens gr c h
    have hnone : tokens[c.i]? = none := List.getElem?_eq_none h
    simp [parseStep, hnone]

/-- Witness for C10 at a concrete over-long cursor. -/
theorem C10_no_input_bounds_check_witness :
    parseStep [⟨Kind.KindEOF, ""⟩] (NewGrammar ([] : List (Rule Unit))) ⟨[], [], ⟨[]⟩, 5⟩ =
      StepRes.done (NewGrammar []) (PResult.fault "index out of range") :=
  C10_no_input_bounds_check.2 Unit [⟨Kind.KindEOF, ""⟩] (NewGrammar []) ⟨[], [], ⟨[]⟩, 5⟩ (by decide)

set_option maxHeartbeats 4000000 in
/-- Claim C4 (round-trip scenario): the grammar `0 -> E`, `E -> E "+" E`
(sum builder), `E -> _ident_` (leaf-number builder) builds without error,
and parsing `[ident "1", other "+", ident "2", eof]` returns the value 3
with no error. -/
theorem C4_round_trip :
    exprBuild.2 = none ∧ (Parse exprBuild.1 exprTokens 50).2 = PResult.ok (Sum.inr 3) :=
  ⟨rfl, by decide⟩

set_option maxHeartbeats 4000000 in
/-- Claim C1 is contradicted by the code: the reduce-reduce conflict in the
non-initial state reached by shifting `"a"` is detected by the recursive
`addState` call (first conjunct), but the call sites discard that error, so
`Build` returns no error and leaves a partial automaton in which the
conflicted state is registered with an empty action map (second and third
conjuncts); the state really has two complete items (fourth conjunct). -/
theorem C1_nested_conflict_error_discarded :
    (addState dupRules dupBuild.1.terminals 5 dupConflictState ⟨[], []⟩).2 =
      some (BErr.reduceReduce dupConflictState) ∧
    dupBuild.2 = none ∧
    alookup dupConflictState dupBuild.1.actions = some [] ∧
    (reductions dupRules dupConflictState).length = 2 :=
  ⟨by decide, rfl, by decide, by decide⟩

set_option maxHeartbeats 4000000 in
/-- Counterexample to claim C2: the wrapping grammar builds without error,
yet parsing `"(" "a" eof` makes a Reduce for the start-marker rule
`0 -> "a"` fire while the residual attribute stack has depth 2, and Parse
faults ("corrupted symbol stack") instead of terminating successfully with
the built value as the claim states. -/
theorem C2_counterexample :
    wrapBuild.2 = none ∧
    (Parse wrapBuild.1 wrapTokens 30).2 = PResult.fault "corrupted symbol stack" :=
  ⟨rfl, by decide⟩

/-- Claim C2 as amended: when a Reduce action fires for a rule whose
left-hand side is the start marker `"0"`, Parse terminates successfully
with the newly built value only when the residual attribute stack depth is
exactly 1; at any other residual depth the step faults (the Go code panics
with "corrupted symbol stack") rather than accepting. -/
theorem C2_amended_accept_needs_singleton_stack {α : Type} (gr : Grammar α) (c : PConf α)
    (tok : Token) (ri : Nat) (r : Rule α)
    (hr : gr.Rules[ri]? = some r) (hlhs : r.Lhs = "0") (hl : r.Rhs.length ≤ c.stack.length) :
    (c.stack.length - r.Rhs.length + 1 = 1 →
      applyAction gr c tok (Action.reduce ri) =
        StepRes.done gr (PResult.ok (r.Builder (c.stack.drop (c.stack.length - r.Rhs.length))))) ∧
    (c.stack.length - r.Rhs.length + 1 ≠ 1 →
      applyAction gr c tok (Action.reduce ri) =
        StepRes.done gr (PResult.fault "corrupted symbol stack")) := by
  have hlen : (c.stack.take (c.stack.length - r.Rhs.length) ++ [r.Builder (c.stack.drop (c.stack.length - r.Rhs.length))]).length
      = c.stack.length - r.Rhs.length + 1 := by
    simp [List.length_take, Nat.min_eq_left (Nat.sub_le _ _)]
  constructor
  · intro h1
    simp [applyAction, hr, hlhs, hl, hlen, h1]
  · intro h1
    simp [applyAction, hr, hlhs, hl, hlen, h1]

/-- Witness for the amended C2: with the single rule `0 -> ε`, reducing on
an empty stack leaves depth 1 and accepts, while reducing on a one-deep
stack leaves depth 2 and faults. -/
theorem C2_amended_accept_needs_singleton_stack_witness :
    (applyAction { Rules := [⟨"0", [], fun _ => Sum.inr ()⟩] } (⟨[], [⟨[]⟩], ⟨[]⟩, 0⟩ : PConf Unit)
        ⟨Kind.KindEOF, ""⟩ (Action.reduce 0) =
      StepRes.done { Rules := [⟨"0", [], fun _ => Sum.inr ()⟩] } (PResult.ok (Sum.inr ()))) ∧
    (applyAction { Rules := [⟨"0", [], fun _ => Sum.inr ()⟩] }
        (⟨[Sum.inr ()], [⟨[]⟩], ⟨[]⟩, 0⟩ : PConf Unit) ⟨Kind.KindEOF, ""⟩ (Action.reduce 0) =
      StepRes.done { Rules := [⟨"0", [], fun _ => Sum.inr ()⟩] }
        (PResult.fault "corrupted symbol stack")) :=
  ⟨(C2_amended_accept_needs_singleton_stack _ _ _ _ _ rfl rfl (by decide)).1 (by decide),
   (C2_amended_accept_needs_singleton_stack _ _ _ _ _ rfl rfl (by decide)).2 (by decide)⟩

/-- Claim C6: when the exact-text action lookup fails and the token is
fallback-eligible (identifier kind), the action found for the identifier
wildcard is dispatched instead; only when both lookups fail does the step
report the no-action syntax error. -/
theorem C6_identifier_fallback {α : Type} (tokens : List Token) (gr : Grammar α) (c : PConf α)
    (tok : Token) (as : List (Terminal × Action))
    (htok : tokens[c.i]? = some tok) (hkind : tok.kind = Kind.KindIdent)
    (has : alookup c.st gr.actions = some as)
    (hexact : alookup (Terminal.Match tok.text) as = none) :
    (∀ act, alookup Terminal.Ident as = some act →
      parseStep tokens gr c = applyAction gr c tok act) ∧
    (alookup Terminal.Ident as = none →
      parseStep tokens gr c =
        StepRes.done gr (PResult.perror (PError.noAction (Terminal.Match tok.text) c.st))) := by
  constructor
  · intro act hact
    simp [parseStep, htok, has, terminalFromToken, hkind, resolveAction, hexact, hact]
  · intro hnone
    simp [parseStep, htok, has, terminalFromToken, hkind, resolveAction, hexact, hnone]

/-- A hand-built automaton whose sole state maps only the identifier
wildcard to a shift (for the C6 witness). -/
def fbGrammar : Grammar Unit :=
  { Rules := [], actions := [(⟨[]⟩, [(Terminal.Ident, Action.shift ⟨[⟨0, 1⟩]⟩)])] }

/-- A hand-built automaton whose sole state has an empty action map
(for the C6 witness). -/
def fbGrammar2 : Grammar Unit :=
  { Rules := [], actions := [(⟨[]⟩, [])] }

/-- The starting configuration used by the C6 witness. -/
def fbConf : PConf Unit := ⟨[], [⟨[]⟩], ⟨[]⟩, 0⟩

/-- The never-seen identifier token used by the C6 witness. -/
def fbToken : Token := ⟨Kind.KindIdent, "zzz"⟩

/-- Witness for C6: a state whose action map has no entry for the literal
`"zzz"` but an entry for the identifier wildcard dispatches the wildcard
action on the never-seen identifier token; without a wildcard entry the
no-action error is reported. -/
theorem C6_identifier_fallback_witness :
    (parseStep [fbToken] fbGrammar fbConf =
      applyAction fbGrammar fbConf fbToken (Action.shift ⟨[⟨0, 1⟩]⟩)) ∧
    (parseStep [fbToken] fbGrammar2 fbConf =
      StepRes.done fbGrammar2 (PResult.perror (PError.noAction (Terminal.Match "zzz") ⟨[]⟩))) :=
  ⟨(C6_identifier_fallback [fbToken] fbGrammar fbConf fbToken
      [(Terminal.Ident, Action.shift ⟨[⟨0, 1⟩]⟩)] rfl rfl (by decide) (by decide)).1
      (Action.shift ⟨[⟨0, 1⟩]⟩) (by decide),
   (C6_identifier_fallback [fbToken] fbGrammar2 fbConf fbToken [] rfl rfl (by decide)
      (by decide)).2 (by decide)⟩

/-! ### Closure lemmas (claim C7) -/

theorem mem_insertSortedItem {it x : Item} : ∀ {l : List Item},
    (x ∈ insertSortedItem it l ↔ x = it ∨ x ∈ l)
  | [] => by simp [insertSortedItem]
  | y :: ys => by
    simp only [insertSortedItem]
    split
    · simp [List.mem_cons]
    · simp only [List.mem_cons, mem_insertSortedItem]
      tauto

theorem mem_sortItems {x : Item} : ∀ {l : List Item}, (x ∈ sortItems l ↔ x ∈ l)
  | [] => Iff.rfl
  | y :: ys => by
    show x ∈ insertSortedItem y (sortItems ys) ↔ _
    rw [mem_insertSortedItem, mem_sortItems]
    simp [List.mem_cons]

theorem addItem_fst_mem_self (s : StateV) (it : Item) : it ∈ (addItem s it).1.items := by
  unfold addItem
  split
  · assumption
  · simp [mem_sortItems]

theorem addItem_mono {s : StateV} {it x : Item} (h : x ∈ s.items) :
    x ∈ (addItem s it).1.items := by
  unfold addItem
  split
  · exact h
  · simp [mem_sortItems, List.mem_append, h]

theorem addItem_of_mem {s : StateV} {it : Item} (h : it ∈ s.items) : addItem s it = (s, false) := by
  simp [addItem, h]

theorem addItem_snd_of_not_mem {s : StateV} {it : Item} (h : it ∉ s.items) :
    (addItem s it).2 = true := by
  simp [addItem, h]

theorem addAll_mono {x : Item} : ∀ {l : List Item} {s : StateV},
    x ∈ s.items → x ∈ (addAll s l).1.items
  | [], _, h => h
  | it :: rest, s, h => addAll_mono (l := rest) (addItem_mono h)

theorem addAll_mem {x : Item} : ∀ {l : List Item} {s : StateV},
    x ∈ l → x ∈ (addAll s l).1.items
  | it :: rest, s, h => by
    rcases List.mem_cons.mp h with rfl | hrest
    · exact addAll_mono (l := rest) (addItem_fst_mem_self s x)
    · exact addAll_mem (l := rest) hrest

theorem addAll_all_mem : ∀ {l : List Item} {s : StateV},
    (∀ x ∈ l, x ∈ s.items) → addAll s l = (s, false)
  | [], _, _ => rfl
  | it :: rest, s, h => by
    have h1 : addItem s it = (s, false) := addItem_of_mem (h it (List.mem_cons_self it rest))
    have h2 : addAll s rest = (s, false) := addAll_all_mem fun x hx => h x (List.mem_cons_of_mem it hx)
    show ((addAll (addItem s it).1 rest).1, (addItem s it).2 || (addAll (addItem s it).1 rest).2) = (s, false)
    rw [h1]
    show ((addAll s rest).1, false || (addAll s rest).2) = (s, false)
    rw [h2]
    rfl

theorem addAll_false : ∀ {l : List Item} {s : StateV},
    (addAll s l).2 = false → ((addAll s l).1 = s ∧ ∀ x ∈ l, x ∈ s.items)
  | [], s, _ => ⟨rfl, by simp⟩
  | it :: rest, s, h => by
    have hsplit : (addAll s (it :: rest)).2 = ((addItem s it).2 || (addAll (addItem s it).1 rest).2) := rfl
    rw [hsplit, Bool.or_eq_false_iff] at h
    by_cases hm : it ∈ s.items
    · have h1 : addItem s it = (s, false) := addItem_of_mem hm
      have hrec : (addAll s rest).2 = false := by
        have := h.2
        rw [h1] at this
        exact this
      obtain ⟨hfst, hall⟩ := addAll_false hrec
      refine ⟨?_, ?_⟩
      · show (addAll (addItem s it).1 rest).1 = s
        rw [h1]
        exact hfst
      · intro x hx
        rcases List.mem_cons.mp hx with rfl | hx
        · exact hm
        · exact hall x hx
    · exact absurd h.1 (by simp [addItem_snd_of_not_mem hm])

theorem addAll_true : ∀ {l : List Item} {s : StateV},
    (addAll s l).2 = true → ∃ x ∈ l, x ∉ s.items ∧ x ∈ (addAll s l).1.items
  | it :: rest, s, h => by
    by_cases hm : it ∈ s.items
    · have h1 : addItem s it = (s, false) := addItem_of_mem hm
      have hsplit : (addAll s (it :: rest)).2 = ((addItem s it).2 || (addAll (addItem s it).1 rest).2) := rfl
      rw [hsplit, h1] at h
      have hrec : (addAll s rest).2 = true := by simpa using h
      obtain ⟨x, hxl, hxn, hxi⟩ := addAll_true hrec
      refine ⟨x, List.mem_cons_of_mem it hxl, hxn, ?_⟩
      show x ∈ (addAll (addItem s it).1 rest).1.items
      rw [h1]
      exact hxi
    · refine ⟨it, List.mem_cons_self it rest, hm, ?_⟩
      exact addAll_mono (l := rest) (addItem_fst_mem_self s it)

theorem rulesWithLhs_lt {α : Type} {rules : List (Rule α)} {lhs : String} {r : Nat}
    (h : r ∈ rulesWithLhs rules lhs) : r < rules.length := by
  unfold rulesWithLhs at h
  rw [List.mem_filterMap] at h
  obtain ⟨p, hp, hif⟩ := h
  have := List.fst_lt_of_mem_enum hp
  split at hif
  · cases hif
    exact this
  · cases hif

theorem genItems_lt {α : Type} {rules : List (Rule α)} {it : Item} {r : Nat}
    (h : r ∈ genItems rules it) : r < rules.length := by
  unfold genItems at h
  split at h
  · split at h
    · exact rulesWithLhs_lt h
    · cases h
  · cases h

theorem presentCount_le {α : Type} (rules : List (Rule α)) (s : StateV) :
    presentCount rules s ≤ rules.length := by
  calc presentCount rules s ≤ (Finset.range rules.length).card := Finset.card_filter_le _ _
  _ = rules.length := Finset.card_range _

theorem presentCount_lt {α : Type} (rules : List (Rule α)) {s s' : StateV} {r : Nat}
    (hsub : ∀ x ∈ s.items, x ∈ s'.items) (hr : r < rules.length)
    (hnot : ({ rule := r, dot := 0 } : Item) ∉ s.items)
    (hin : ({ rule := r, dot := 0 } : Item) ∈ s'.items) :
    presentCount rules s < presentCount rules s' := by
  apply Finset.card_lt_card
  constructor
  · intro x hx
    rw [Finset.mem_filter] at hx ⊢
    exact ⟨hx.1, hsub _ hx.2⟩
  · intro hsup
    apply hnot
    have : r ∈ (Finset.range rules.length).filter fun r => ({ rule := r, dot := 0 } : Item) ∈ s'.items := by
      rw [Finset.mem_filter]
      exact ⟨Finset.mem_range.mpr hr, hin⟩
    have := hsup this
    rw [Finset.mem_filter] at this
    exact this.2

theorem mem_newItemsOf {α : Type} {rules : List (Rule α)} {s : StateV} {processed : List Item}
    {x : Item} :
    x ∈ newItemsOf rules s processed ↔
      ∃ it, (it ∈ s.items ∧ it ∉ processed) ∧ ∃ r ∈ genItems rules it, x = { rule := r, dot := 0 } := by
  unfold newItemsOf
  rw [List.mem_flatMap]
  constructor
  · rintro ⟨it, hit, hx⟩
    rw [List.mem_filter] at hit
    rw [List.mem_map] at hx
    obtain ⟨r, hr, rfl⟩ := hx
    exact ⟨it, ⟨hit.1, by simpa using hit.2⟩, r, hr, rfl⟩
  · rintro ⟨it, ⟨hits, hitp⟩, r, hr, rfl⟩
    refine ⟨it, ?_, List.mem_map.mpr ⟨r, hr, rfl⟩⟩
    rw [List.mem_filter]
    exact ⟨hits, by simpa using hitp⟩

theorem closeLoop_of_closed {α : Type} {rules : List (Rule α)} {s : StateV}
    (h : isClosed rules s) (fuel : Nat) : closeLoop rules (fuel + 1) s [] = s := by
  have hmem : ∀ x ∈ newItemsOf rules s [], x ∈ s.items := by
    intro x hx
    rw [mem_newItemsOf] at hx
    obtain ⟨it, ⟨hits, _⟩, r, hr, rfl⟩ := hx
    exact h it hits r hr
  have haddall := addAll_all_mem hmem
  simp [closeLoop, haddall]

theorem closeLoop_closed {α : Type} (rules : List (Rule α)) :
    ∀ (fuel : Nat) (s : StateV) (processed : List Item),
    (∀ it ∈ processed, ∀ r ∈ genItems rules it, ({ rule := r, dot := 0 } : Item) ∈ s.items) →
    rules.length - presentCount rules s < fuel →
    isClosed rules (closeLoop rules fuel s processed) := by
  intro fuel
  induction fuel with
  | zero =>
    intro s processed _ hf
    omega
  | succ fuel ih =>
    intro s processed hinv hf
    by_cases hadd : (addAll s (newItemsOf rules s processed)).2 = true
    · have hstep : closeLoop rules (fuel + 1) s processed =
          closeLoop rules fuel (addAll s (newItemsOf rules s processed)).1
            (processed ++ s.items.filter fun it => decide (it ∉ processed)) := by
        simp [closeLoop, hadd]
      rw [hstep]
      obtain ⟨x, hxl, hxn, hxi⟩ := addAll_true hadd
      obtain ⟨it0, _, r0, hr0, rfl⟩ := mem_newItemsOf.mp hxl
      apply ih
      · intro it hit r hr
        rcases List.mem_append.mp hit with hold | hnew
        · exact addAll_mono (hinv it hold r hr)
        · rw [List.mem_filter] at hnew
          apply addAll_mem
          rw [mem_newItemsOf]
          exact ⟨it, ⟨hnew.1, by simpa using hnew.2⟩, r, hr, rfl⟩
      · have hlt : presentCount rules s < presentCount rules (addAll s (newItemsOf rules s processed)).1 :=
          presentCount_lt rules (fun x hx => addAll_mono hx) (genItems_lt hr0) hxn hxi
        have hle := presentCount_le rules (addAll s (newItemsOf rules s processed)).1
        omega
    · rw [Bool.not_eq_true] at hadd
      obtain ⟨hfst, hall⟩ := addAll_false hadd
      have hstep : closeLoop rules (fuel + 1) s processed = s := by
        simp [closeLoop, hadd, hfst]
      rw [hstep]
      intro it hit r hr
      by_cases hp : it ∈ processed
      · exact hinv it hp r hr
      · apply hall
        rw [mem_newItemsOf]
        exact ⟨it, ⟨hit, hp⟩, r, hr, rfl⟩

theorem closeState_closed {α : Type} (rules : List (Rule α)) (s : StateV) :
    isClosed rules (closeState rules s) := by
  apply closeLoop_closed rules (rules.length + 1) s []
  · simp
  · have := presentCount_le rules s
    omega

/-- Claim C7: closure is idempotent.  Applying `closeState` to an
already-closed state (one whose closure scan adds nothing) returns the
identical item list — nothing added, removed or reordered — and
`closeState (closeState s) = closeState s` for every state. -/
theorem C7_closure_idempotent :
    (∀ (α : Type) (rules : List (Rule α)) (s : StateV), isClosed rules s → closeState rules s = s) ∧
    (∀ (α : Type) (rules : List (Rule α)) (s : StateV),
      closeState rules (closeState rules s) = closeState rules s) :=
  ⟨fun _ rules _ h => closeLoop_of_closed h rules.length,
   fun _ rules s => closeLoop_of_closed (closeState_closed rules s) rules.length⟩

/-- Witness for C7 on the closed initial state of the round-trip grammar. -/
theorem C7_closure_idempotent_witness :
    closeState exprRules ⟨[⟨0, 0⟩, ⟨1, 0⟩, ⟨2, 0⟩]⟩ = ⟨[⟨0, 0⟩, ⟨1, 0⟩, ⟨2, 0⟩]⟩ :=
  C7_closure_idempotent.1 Int exprRules ⟨[⟨0, 0⟩, ⟨1, 0⟩, ⟨2, 0⟩]⟩ (by decide)

/-! ### Automaton-construction lemmas (claims C3 and C9) -/

theorem alookup_ainsert_self {κ β : Type} [DecidableEq κ] (k : κ) (v : β) :
    ∀ (l : List (κ × β)), alookup k (ainsert k v l) = some v
  | [] => by simp [ainsert, alookup]
  | (k0, v0) :: rest => by
    by_cases h : k0 = k
    · simp [ainsert, h, alookup]
    · simp [ainsert, h, alookup, alookup_ainsert_self k v rest]

theorem alookup_ainsert_ne {κ β : Type} [DecidableEq κ] {k k' : κ} (h : k' ≠ k) (v : β) :
    ∀ (l : List (κ × β)), alookup k' (ainsert k v l) = alookup k' l
  | [] => by simp [ainsert, alookup, Ne.symm h]
  | (k0, v0) :: rest => by
    by_cases h0 : k0 = k
    · subst h0
      simp [ainsert, alookup, Ne.symm h]
    · simp only [ainsert, if_neg h0, alookup]
      split
      · rfl
      · exact alookup_ainsert_ne h v rest

theorem mem_keys_ainsert {κ β : Type} [DecidableEq κ] {x k : κ} (v : β) :
    ∀ {l : List (κ × β)}, x ∈ (ainsert k v l).map Prod.fst → x = k ∨ x ∈ l.map Prod.fst
  | [], h => by simpa [ainsert] using h
  | (k0, v0) :: rest, h => by
    by_cases h0 : k0 = k
    · subst h0
      simpa [ainsert] using h
    · simp only [ainsert, if_neg h0, List.map_cons, List.mem_cons] at h
      rcases h with h | h
      · exact Or.inr (by simp [h])
      · rcases mem_keys_ainsert v h with h | h
        · exact Or.inl h
        · exact Or.inr (by simp [h])

theorem keys_ainsert_nodup {κ β : Type} [DecidableEq κ] (k : κ) (v : β) :
    ∀ {l : List (κ × β)}, (l.map Prod.fst).Nodup → ((ainsert k v l).map Prod.fst).Nodup
  | [], _ => by simp [ainsert]
  | (k0, v0) :: rest, h => by
    rw [List.map_cons, List.nodup_cons] at h
    by_cases h0 : k0 = k
    · subst h0
      simpa [ainsert, List.nodup_cons] using h
    · rw [show ainsert k v ((k0, v0) :: rest) = (k0, v0) :: ainsert k v rest from by simp [ainsert, h0]]
      rw [List.map_cons, List.nodup_cons]
      refine ⟨?_, keys_ainsert_nodup k v h.2⟩
      intro hmem
      rcases mem_keys_ainsert v hmem with h1 | h1
      · exact h0 h1
      · exact h.1 h1

theorem stTermsLoop_keys_nodup {α : Type} (rules : List (Rule α)) :
    ∀ (items : List Item) (m : List (Terminal × StateV)),
    (m.map Prod.fst).Nodup → ((stTermsLoop rules items m).map Prod.fst).Nodup
  | [], m, h => h
  | it :: rest, m, h => by
    rw [show stTermsLoop rules (it :: rest) m = stTermsLoop rules rest
      (match rules[it.rule]? with
        | some r =>
          match r.Rhs[it.dot]? with
          | some (Symbol.term t) =>
            ainsert t (addItem ((alookup t m).getD ⟨[]⟩) ⟨it.rule, it.dot + 1⟩).1 m
          | _ => m
        | none => m) from rfl]
    apply stTermsLoop_keys_nodup rules rest
    split
    · split
      · exact keys_ainsert_nodup _ _ h
      · exact h
    · exact h

theorem stateTerminals_keys_nodup {α : Type} (rules : List (Rule α)) (s : StateV) :
    ((stateTerminals rules s).map Prod.fst).Nodup := by
  unfold stateTerminals
  rw [List.map_map]
  have hcomp : (Prod.fst ∘ fun p : Terminal × StateV => (p.1, closeState rules p.2)) =
      (Prod.fst : Terminal × StateV → Terminal) := funext fun p => rfl
  rw [hcomp]
  exact stTermsLoop_keys_nodup rules s.items [] (by simp)

theorem isShiftAct_reduce_map (t : Terminal) (r : Nat) :
    ∀ (ts : List Terminal), isShiftAct (alookup t (ts.map fun t' => (t', Action.reduce r))) = false
  | [] => rfl
  | t0 :: rest => by
    simp only [List.map_cons, alookup]
    split
    · rfl
    · exact isShiftAct_reduce_map t r rest

theorem isShiftAct_defaultActs (terminals : List Terminal) (rs : List Nat) (t : Terminal) :
    isShiftAct (alookup t (defaultActs terminals rs)) = false := by
  match rs with
  | [] => rfl
  | [r] => exact isShiftAct_reduce_map t r terminals
  | _ :: _ :: _ => rfl

theorem shiftLoop_spec {α : Type} (rules : List (Rule α))
    {f : StateV → Tables → Tables × Option BErr}
    (hf1 : ∀ s2 tbl s' m, alookup s' tbl.actions = some m →
      alookup s' (f s2 tbl).1.actions = some m)
    (hf3 : ∀ s2 tbl s' m, alookup s' (f s2 tbl).1.actions = some m →
      alookup s' tbl.actions = some m ∨ GoodMap rules s' m)
    (s : StateV) :
    ∀ (entries : List (Terminal × StateV)) (a : List (Terminal × Action)) (tbl : Tables),
    (entries.map Prod.fst).Nodup →
    (∀ t s2, (t, s2) ∈ entries → isShiftAct (alookup t a) = false) →
    alookup s tbl.actions = some a →
    ((shiftLoop f s entries a tbl).2.2 = none ∧
     (∀ t s2, (t, s2) ∈ entries →
        alookup t (shiftLoop f s entries a tbl).2.1 = some (Action.shift s2)) ∧
     (∀ t, t ∉ entries.map Prod.fst →
        alookup t (shiftLoop f s entries a tbl).2.1 = alookup t a) ∧
     alookup s (shiftLoop f s entries a tbl).1.actions = some (shiftLoop f s entries a tbl).2.1 ∧
     (∀ s' m, s' ≠ s → alookup s' tbl.actions = some m →
        alookup s' (shiftLoop f s entries a tbl).1.actions = some m) ∧
     (∀ s' m, s' ≠ s → alookup s' (shiftLoop f s entries a tbl).1.actions = some m →
        alookup s' tbl.actions = some m ∨ GoodMap rules s' m)) := by
  intro entries
  induction entries with
  | nil =>
    intro a tbl _ _ hent
    exact ⟨rfl, by simp, fun _ _ => rfl, hent, fun _ _ _ h => h, fun _ _ _ h => Or.inl h⟩
  | cons e rest ih =>
    obtain ⟨t, s2⟩ := e
    intro a tbl hnd hsh hent
    have hguard : isShiftAct (alookup t a) = false := hsh t s2 (List.mem_cons_self _ _)
    have hunfold : shiftLoop f s ((t, s2) :: rest) a tbl =
        shiftLoop f s rest (ainsert t (Action.shift s2) a)
          (f s2 { tbl with actions := ainsert s (ainsert t (Action.shift s2) a) tbl.actions }).1 := by
      simp [shiftLoop, hguard]
    rw [List.map_cons, List.nodup_cons] at hnd
    have htnotin : t ∉ rest.map Prod.fst := hnd.1
    have hsh' : ∀ t' s2', (t', s2') ∈ rest →
        isShiftAct (alookup t' (ainsert t (Action.shift s2) a)) = false := by
      intro t' s2' hm
      have ht' : t' ≠ t := by
        intro heq
        exact htnotin (heq ▸ List.mem_map.mpr ⟨(t', s2'), hm, rfl⟩)
      rw [alookup_ainsert_ne ht']
      exact hsh t' s2' (List.mem_cons_of_mem _ hm)
    have hent' : alookup s
        (f s2 { tbl with actions := ainsert s (ainsert t (Action.shift s2) a) tbl.actions }).1.actions =
        some (ainsert t (Action.shift s2) a) :=
      hf1 _ _ _ _ (alookup_ainsert_self s _ tbl.actions)
    obtain ⟨S1, S2, S3, S4, S5, S6⟩ := ih (ainsert t (Action.shift s2) a)
      (f s2 { tbl with actions := ainsert s (ainsert t (Action.shift s2) a) tbl.actions }).1
      hnd.2 hsh' hent'
    rw [hunfold]
    refine ⟨S1, ?_, ?_, S4, ?_, ?_⟩
    · intro t' s2' hm
      rcases List.mem_cons.mp hm with heq | hm
      · obtain ⟨h1, h2⟩ := Prod.mk.inj heq
        rw [h1, h2, S3 t htnotin, alookup_ainsert_self]
      · exact S2 t' s2' hm
    · intro t' hnotin
      rw [List.map_cons, List.mem_cons] at hnotin
      push_neg at hnotin
      rw [S3 t' hnotin.2, alookup_ainsert_ne hnotin.1]
    · intro s' m hne hm
      apply S5 s' m hne
      apply hf1
      rw [alookup_ainsert_ne hne]
      exact hm
    · intro s' m hne hm
      rcases S6 s' m hne hm with h2 | hg
      · rcases hf3 _ _ _ _ h2 with h3 | hg
        · rw [alookup_ainsert_ne hne] at h3
          exact Or.inl h3
        · exact Or.inr hg
      · exact Or.inr hg

theorem gotoLoop_spec {α : Type} (rules : List (Rule α))
    {f : StateV → Tables → Tables × Option BErr}
    (hf1 : ∀ s2 tbl s' m, alookup s' tbl.actions = some m →
      alookup s' (f s2 tbl).1.actions = some m)
    (hf3 : ∀ s2 tbl s' m, alookup s' (f s2 tbl).1.actions = some m →
      alookup s' tbl.actions = some m ∨ GoodMap rules s' m)
    (s : StateV) :
    ∀ (entries : List (String × StateV)) (g : List (String × StateV)) (tbl : Tables),
    ((∀ s' m, alookup s' tbl.actions = some m →
        alookup s' (gotoLoop f s entries g tbl).actions = some m) ∧
     (∀ s' m, alookup s' (gotoLoop f s entries g tbl).actions = some m →
        alookup s' tbl.actions = some m ∨ GoodMap rules s' m)) := by
  intro entries
  induction entries with
  | nil => exact fun g tbl => ⟨fun _ _ h => h, fun _ _ h => Or.inl h⟩
  | cons e rest ih =>
    obtain ⟨nt, s2⟩ := e
    intro g tbl
    have hunfold : gotoLoop f s ((nt, s2) :: rest) g tbl =
        gotoLoop f s rest (ainsert nt s2 g)
          (f s2 { tbl with gotos := ainsert s (ainsert nt s2 g) tbl.gotos }).1 := rfl
    obtain ⟨G1, G2⟩ := ih (ainsert nt s2 g)
      (f s2 { tbl with gotos := ainsert s (ainsert nt s2 g) tbl.gotos }).1
    rw [hunfold]
    constructor
    · intro s' m hm
      exact G1 s' m
        (hf1 s2 { tbl with gotos := ainsert s (ainsert nt s2 g) tbl.gotos } s' m hm)
    · intro s' m hm
      rcases G2 s' m hm with h2 | hg
      · rcases hf3 s2 { tbl with gotos := ainsert s (ainsert nt s2 g) tbl.gotos } s' m h2 with h3 | hg
        · exact Or.inl h3
        · exact Or.inr hg
      · exact Or.inr hg

theorem addStateF_spec {α : Type} (rules : List (Rule α)) (terminals : List Terminal)
    {f : StateV → Tables → Tables × Option BErr}
    (hf1 : ∀ s2 tbl s' m, alookup s' tbl.actions = some m →
      alookup s' (f s2 tbl).1.actions = some m)
    (hf3 : ∀ s2 tbl s' m, alookup s' (f s2 tbl).1.actions = some m →
      alookup s' tbl.actions = some m ∨ GoodMap rules s' m)
    (s : StateV) (tbl : Tables) :
    ((∀ s' m, alookup s' tbl.actions = some m →
        alookup s' (addStateF rules terminals f s tbl).1.actions = some m) ∧
     isShiftShiftErr (addStateF rules terminals f s tbl).2 = false ∧
     (∀ s' m, alookup s' (addStateF rules terminals f s tbl).1.actions = some m →
        alookup s' tbl.actions = some m ∨ GoodMap rules s' m)) := by
  by_cases hreg : (alookup s tbl.actions).isSome
  · have hid : addStateF rules terminals f s tbl = (tbl, none) := by
      simp [addStateF, hreg]
    rw [hid]
    exact ⟨fun _ _ h => h, rfl, fun _ _ h => Or.inl h⟩
  · have hsne : ∀ (s' : StateV) (m : List (Terminal × Action)),
        alookup s' tbl.actions = some m → s' ≠ s := by
      intro s' m h heq
      subst heq
      rw [h] at hreg
      exact hreg rfl
    by_cases hred : (reductions rules s).length > 1
    · have hid : addStateF rules terminals f s tbl =
          ({ tbl with actions := ainsert s [] tbl.actions }, some (BErr.reduceReduce s)) := by
        simp [addStateF, hreg, hred]
      rw [hid]
      refine ⟨?_, rfl, ?_⟩
      · intro s' m h
        rw [alookup_ainsert_ne (hsne s' m h)]
        exact h
      · intro s' m h
        by_cases he : s' = s
        · subst he
          rw [alookup_ainsert_self] at h
          injection h with h
          subst h
          exact Or.inr fun h1 => absurd h1 (by omega)
        · rw [alookup_ainsert_ne he] at h
          exact Or.inl h
    · have hent1 : alookup s
          (ainsert s (defaultActs terminals (reductions rules s)) (ainsert s [] tbl.actions)) =
          some (defaultActs terminals (reductions rules s)) :=
        alookup_ainsert_self s _ _
      obtain ⟨S1, S2, S3, S4, S5, S6⟩ := shiftLoop_spec rules hf1 hf3 s
        (stateTerminals rules s)
        (defaultActs terminals (reductions rules s))
        { tbl with actions :=
            (ainsert s (defaultActs terminals (reductions rules s)) (ainsert s [] tbl.actions)) }
        (stateTerminals_keys_nodup rules s)
        (fun t _ _ => isShiftAct_defaultActs terminals (reductions rules s) t)
        hent1
      rcases hsl : shiftLoop f s (stateTerminals rules s)
        (defaultActs terminals (reductions rules s))
        { tbl with actions :=
            (ainsert s (defaultActs terminals (reductions rules s)) (ainsert s [] tbl.actions)) }
          with ⟨tbl2, a', e⟩
      rw [hsl] at S1 S2 S3 S4 S5 S6
      simp only at S1 S2 S3 S4 S5 S6
      subst S1
      have hid : addStateF rules terminals f s tbl =
          (gotoLoop f s (stateNonTerminals rules s) []
            { tbl2 with gotos := ainsert s [] tbl2.gotos }, none) := by
        simp [addStateF, hreg, hred, hsl]
      obtain ⟨G1, G2⟩ := gotoLoop_spec rules hf1 hf3 s (stateNonTerminals rules s) []
        { tbl2 with gotos := ainsert s [] tbl2.gotos }
      rw [hid]
      refine ⟨?_, rfl, ?_⟩
      · intro s' m h
        have hne := hsne s' m h
        apply G1
        apply S5 s' m hne
        show alookup s' (ainsert s (defaultActs terminals (reductions rules s))
          (ainsert s [] tbl.actions)) = some m
        rw [alookup_ainsert_ne hne, alookup_ainsert_ne hne]
        exact h
      · intro s' m h
        rcases G2 s' m h with h2 | hg
        · by_cases he : s' = s
          · subst he
            rw [show alookup s' ({ tbl2 with gotos := ainsert s' [] tbl2.gotos} : Tables).actions
                = alookup s' tbl2.actions from rfl, S4] at h2
            injection h2 with h2
            subst h2
            exact Or.inr fun _ t s2 hmem => S2 t s2 hmem
          · rcases S6 s' m he h2 with h3 | hg
            · rw [alookup_ainsert_ne he, alookup_ainsert_ne he] at h3
              exact Or.inl h3
            · exact Or.inr hg
        · exact Or.inr hg

theorem addState_spec {α : Type} (rules : List (Rule α)) (terminals : List Terminal) :
    ∀ (fuel : Nat) (s : StateV) (tbl : Tables),
    ((∀ s' m, alookup s' tbl.actions = some m →
        alookup s' (addState rules terminals fuel s tbl).1.actions = some m) ∧
     isShiftShiftErr (addState rules terminals fuel s tbl).2 = false ∧
     (∀ s' m, alookup s' (addState rules terminals fuel s tbl).1.actions = some m →
        alookup s' tbl.actions = some m ∨ GoodMap rules s' m)) := by
  intro fuel
  induction fuel with
  | zero => exact fun s tbl => ⟨fun _ _ h => h, rfl, fun _ _ h => Or.inl h⟩
  | succ fuel ih =>
    intro s tbl
    exact addStateF_spec rules terminals
      (fun s2 tbl' s' m h => (ih s2 tbl').1 s' m h)
      (fun s2 tbl' s' m h => (ih s2 tbl').2.2 s' m h)
      s tbl

theorem buildRun_snd {α : Type} (gr : Grammar α) (fuel : Nat) :
    (buildRun gr fuel).2 =
      (addState gr.Rules (insertDedup (scanSymbols gr.Rules gr.nonterminals gr.terminals).2 Terminal.EOF)
        fuel (closeState gr.Rules ⟨(rulesWithLhs gr.Rules "0").map fun r => ⟨r, 0⟩⟩)
        { actions := gr.actions, gotos := gr.gotos }).2 := rfl

theorem buildRun_actions {α : Type} (gr : Grammar α) (fuel : Nat) :
    (buildRun gr fuel).1.actions =
      (addState gr.Rules (insertDedup (scanSymbols gr.Rules gr.nonterminals gr.terminals).2 Terminal.EOF)
        fuel (closeState gr.Rules ⟨(rulesWithLhs gr.Rules "0").map fun r => ⟨r, 0⟩⟩)
        { actions := gr.actions, gotos := gr.gotos }).1.actions := rfl

/-- Claim C9: neither `Build` nor any `addState` call ever returns the
multiple-shift (shift-shift) conflict error: each state's action map is
fresh within one `addState` call, `stateTerminals` merges the advances over
one terminal into a single target, and the only pre-existing actions a
shift can meet are default reduces, so the shift-over-shift branch is
unreachable. -/
theorem C9_shift_shift_unreachable :
    (∀ (α : Type) (rules : List (Rule α)) (fuel : Nat),
      isShiftShiftErr (buildRun (NewGrammar rules) fuel).2 = false) ∧
    (∀ (α : Type) (rules : List (Rule α)) (terminals : List Terminal) (fuel : Nat)
      (s : StateV) (tbl : Tables),
      isShiftShiftErr (addState rules terminals fuel s tbl).2 = false) :=
  ⟨fun α rules fuel => by
      rw [buildRun_snd]
      exact (addState_spec _ _ fuel _ _).2.1,
   fun α rules terminals fuel s tbl => (addState_spec rules terminals fuel s tbl).2.1⟩

/-- Claim C3: for a grammar accepted by `Build`, in every registered state
with exactly one complete item, every terminal with an advance target is
mapped by the final action table to the shift of the advanced-and-closed
target state (the shift set overwrites the default catch-all reduce set),
with no conflict reported. -/
theorem C3_shift_overrides_reduce {α : Type} (rules : List (Rule α)) (fuel : Nat)
    (hbuild : (buildRun (NewGrammar rules) fuel).2 = none)
    (s : StateV) (m : List (Terminal × Action))
    (hm : alookup s (buildRun (NewGrammar rules) fuel).1.actions = some m)
    (hone : (reductions rules s).length = 1)
    (t : Terminal) (s2 : StateV) (hmem : (t, s2) ∈ stateTerminals rules s) :
    alookup t m = some (Action.shift s2) := by
  rw [buildRun_actions] at hm
  rcases (addState_spec _ _ fuel _ _).2.2 s m hm with h | hg
  · cases h
  · exact hg hone t s2 hmem

set_option maxHeartbeats 4000000 in
/-- Witness for C3 on the round-trip grammar: the state `{0 -> E .,
E -> E . "+" E}` has one complete item, and the final table maps `"+"` to
the shift of the advanced-and-closed target, not to the default reduce. -/
theorem C3_shift_overrides_reduce_witness :
    alookup (Terminal.Match "+")
      [(Terminal.Match "+", Action.shift ⟨[⟨1, 0⟩, ⟨1, 2⟩, ⟨2, 0⟩]⟩),
       (Terminal.Ident, Action.reduce 0), (Terminal.EOF, Action.reduce 0)] =
      some (Action.shift ⟨[⟨1, 0⟩, ⟨1, 2⟩, ⟨2, 0⟩]⟩) :=
  C3_shift_overrides_reduce exprRules 30 rfl ⟨[⟨0, 1⟩, ⟨1, 1⟩]⟩
    [(Terminal.Match "+", Action.shift ⟨[⟨1, 0⟩, ⟨1, 2⟩, ⟨2, 0⟩]⟩),
     (Terminal.Ident, Action.reduce 0), (Terminal.EOF, Action.reduce 0)]
    (by decide) (by decide) (Terminal.Match "+") ⟨[⟨1, 0⟩, ⟨1, 2⟩, ⟨2, 0⟩]⟩ (by decide)

end Shred
